import Mathlib

/-!
Verification of the vgra command-line token parser
(`src/vgra/std/arg_parsers/pythonic_arg_parser.py`, with its base class in
`src/vgra/parser.py`, the argument model in `src/vgra/args.py` and the scalar
decoders in `src/vgra/std/value_parsers.py`).

Python strings are modelled as `List Char`, so a token is a `List Char` and a
token vector is a `List Tok`.  Python passes its `tokens` list by reference and
the parser mutates it in place (`tokens[0] = ...`, `tokens.insert(0, ...)`,
`tokens.pop(0)`) while some operations (`tokens[1:]`, list comprehensions)
allocate fresh list objects; to capture these frame effects faithfully, list
objects live in arenas (`TokHeap` for token lists, `ArgHeap` for ArgSpec
lists) and functions receive references (arena indices) exactly where the
Python function receives a list object.  The embedding models the parser as
constructed by `cli.py`: `PythonicArgParser()` with its default configuration
(`kw_eq_char "="`, `kw_flag_char "-"`, `list_chars ("[", "]")`,
`dict_chars ("{", ":", "}")`) and the default value-parser registry
`[IntParser(), FloatParser()]`.

The mutually recursive parsing routines are given an explicit fuel parameter
(the Python recursion's termination measure is nontrivial because
`split_container_ends` re-inserts split-off delimiter tokens); fuel exhaustion
is a distinguished error that a sufficiently large fuel never produces, and
top-level wrappers supply a generous fuel.
-/

namespace Vgra

/-- A Python string (one command-line token). -/
abbrev Tok := List Char

/-- Arena of token-list objects: a Python `list[str]` value per reference. -/
abbrev TokHeap := List (List Tok)

/-- A reference (object identity) into an arena. -/
abbrev Ref := Nat

/-- Read the token list stored at reference `r`. -/
def readT (th : TokHeap) (r : Ref) : List Tok := th.getD r []

/-- In-place update of the token-list object at `r` (Python mutation such as
`tokens[0] = x`, `tokens.insert(0, x)`, `tokens.pop(0)`). -/
def writeT (th : TokHeap) (r : Ref) (l : List Tok) : TokHeap := th.set r l

/-- Allocate a fresh token-list object (Python `tokens[1:]` and friends). -/
def allocT (th : TokHeap) (l : List Tok) : Ref × TokHeap := (th.length, th ++ [l])

/-- Errors raised during parsing.  `synErr` is `ArgSyntaxError(received,
expected)` from `src/vgra/parser.py`; `valErr` is the `ParseError` that
`IntParser.parse` raises when CPython `int(token, base)` fails (the embedding
records the offending token and base rather than CPython's message text);
`idxErr` stands for Python `IndexError` on `tokens[0]` of an empty list
(unreachable on the guarded paths); `fuelOut` is the fuel artefact. -/
inductive Err where
  | fuelOut
  | idxErr
  | synErr (received : Tok) (expected : Tok)
  | valErr (token : Tok) (base : Nat)
deriving DecidableEq

/-- Parsed values.  `floatTok` records the raw token accepted by
`FloatParser` (CPython float decoding is not modelled further; no verified
claim exercises it).  `bool` is the Python literal `True` bound to bare
flags. -/
inductive Val where
  | str (s : Tok)
  | int (n : Int)
  | floatTok (s : Tok)
  | bool (b : Bool)
  | list (xs : List Val)
  | dict (entries : List (Tok × Val))

/-- Model of `ArgKind` from `src/vgra/args.py` (mirroring `inspect._ParameterKind`). -/
inductive ArgKind where
  | pos
  | poskw
  | kw
  | vpos
  | vkw
deriving DecidableEq

/-- The closed set of annotation types the embedding needs.  `tAny` stands for
the Ellipsis (`...`) "untyped" annotation. -/
inductive VType where
  | tInt
  | tFloat
  | tStr
  | tBool
  | tAny
deriving DecidableEq

/-- Model of `Arg` from `src/vgra/args.py`.  `default := none` models the `MISSING`
sentinel. -/
structure Arg where
  kind : ArgKind
  name : Tok
  names : List Tok
  type : VType
  default : Option Val
  doc : Tok
  required : Bool
  choices : Option (List Val)

/-- Arena of ArgSpec-list objects (`list[Arg]` values). -/
abbrev ArgHeap := List (List Arg)

/-- Read the Arg list stored at reference `r`. -/
def readA (ah : ArgHeap) (r : Ref) : List Arg := ah.getD r []

/-- Allocate a fresh Arg-list object (`args[1:]`, list comprehensions). -/
def allocA (ah : ArgHeap) (l : List Arg) : Ref × ArgHeap := (ah.length, ah ++ [l])

/-- Output type of `kwargs` / `parse_dict`: a Python `dict` kept as an insertion-ordered
association list. -/
abbrev KwList := List (Tok × (Arg × Val))

/-- Python `d[k] = v`: overwrite in place if the key exists, else append. -/
def dinsert {β : Type} (d : List (Tok × β)) (k : Tok) (v : β) : List (Tok × β) :=
  if d.any (fun kv => kv.1 == k) then
    d.map (fun kv => if kv.1 == k then (k, v) else kv)
  else d ++ [(k, v)]

/-- Python `t.startswith(c)` for the single-character prefixes used by the
default configuration. -/
def startsChar (c : Char) (t : Tok) : Bool :=
  match t with
  | [] => false
  | x :: _ => x == c

/-- Python `t.removeprefix(c)` for a single-character prefix. -/
def removePrefixChar (c : Char) (t : Tok) : Tok :=
  match t with
  | [] => []
  | x :: r => if x == c then r else x :: r

/-- First character of the identifier pattern `[a-zA-Z_]+[a-zA-Z0-9_]*`. -/
def isIdentStart (c : Char) : Bool := c.isAlpha || c == '_'

/-- Later characters of the identifier pattern. -/
def isIdentCont (c : Char) : Bool := c.isAlphanum || c == '_'

/-- Model of `split_kw_val` / `split_dict_kw_val`: match `token` against the compiled
regex `^([a-zA-Z_]+[a-zA-Z0-9_]*)SEP(.*)$` and reproduce the
`re.split` + filter-nonempty postprocessing.  Since `SEP` (`=` or `:`) is not
an identifier character, the regex matches exactly when the part before the
first `SEP` is a nonempty identifier; an empty value part is filtered out and
becomes `none`.  No match returns `(none, some token)` (Python
`(None, token)`). -/
def splitKwVal (sep : Char) (t : Tok) : Option Tok × Option Tok :=
  let pre := t.takeWhile (fun c => c != sep)
  let rest := t.drop pre.length
  match rest with
  | [] => (none, some t)
  | _ :: post =>
    if pre ≠ [] ∧ isIdentStart pre.headI ∧ pre.all isIdentCont then
      (some pre, if post = [] then none else some post)
    else (none, some t)

/-- Value of one digit character, as accepted by CPython `int` for bases up
to 16. -/
def digitVal (c : Char) : Option Nat :=
  if '0' ≤ c ∧ c ≤ '9' then some (c.toNat - '0'.toNat)
  else if 'a' ≤ c ∧ c ≤ 'f' then some (c.toNat - 'a'.toNat + 10)
  else if 'A' ≤ c ∧ c ≤ 'F' then some (c.toNat - 'A'.toNat + 10)
  else none

/-- Digit-string value in the given base; `none` when empty or a character is
not a digit of the base. -/
def digitsVal (base : Nat) : List Char → Option Nat
  | [] => none
  | cs => cs.foldl
      (fun acc c =>
        match acc, digitVal c with
        | some n, some d => if d < base then some (n * base + d) else none
        | _, _ => none)
      (some 0)

/-- Strip the optional base prefix (`0x`/`0X`, `0o`/`0O`, `0b`/`0B`) that
CPython `int(s, base)` accepts for bases 16, 8, 2. -/
def stripBasePrefix (base : Nat) (cs : List Char) : List Char :=
  match cs with
  | '0' :: x :: r =>
    if base == 16 ∧ (x == 'x' ∨ x == 'X') then r
    else if base == 8 ∧ (x == 'o' ∨ x == 'O') then r
    else if base == 2 ∧ (x == 'b' ∨ x == 'B') then r
    else cs
  | _ => cs

/-- Model of CPython `int(s, base)` on the inputs the parser feeds it:
optional sign, optional base prefix, then at least one digit.  (CPython
additionally tolerates surrounding whitespace and grouping underscores, which
no verified claim exercises.) -/
def pyIntCore (base : Nat) (cs : List Char) : Option Int :=
  let signed : Bool × List Char :=
    match cs with
    | '-' :: r => (true, r)
    | '+' :: r => (false, r)
    | _ => (false, cs)
  let body := stripBasePrefix base signed.2
  (digitsVal base body).map (fun n => if signed.1 then -(n : Int) else (n : Int))

/-- The registered value parsers, in registry order
(`DEFAULT_VALUE_PARSERS = [IntParser(), FloatParser()]`), plus the fallback
`DefaultValueParser`. -/
inductive VP where
  | intP
  | floatP
  | defaultP
deriving DecidableEq

/-- The `value_type` class attribute of each registered parser. -/
def vpType : VP → VType
  | .intP => .tInt
  | .floatP => .tFloat
  | .defaultP => .tAny

/-- Python `issubclass` on the closed type set (`bool` is a subclass of
`int`; every type is a subclass of itself). -/
def pyIssub : VType → VType → Bool
  | .tBool, .tInt => true
  | a, b => a == b

/-- Model of `ArgParser.resolve_value_parser`: the default parser when the spec is
absent or untyped, else the first registered parser whose `value_type` is a
superclass of the spec's type, else the default parser. -/
def resolveVP (arg : Option Arg) : VP :=
  match arg with
  | none => .defaultP
  | some a =>
    if a.type == .tAny then .defaultP
    else
      match ([VP.intP, VP.floatP]).filter (fun p => pyIssub a.type (vpType p)) with
      | [] => .defaultP
      | p :: _ => p

/-- Run one value parser on the token-list object at `r`
(`IntParser.parse` / `FloatParser.parse` / `DefaultValueParser.parse`): consume
`tokens[0]`, rebind to the fresh tail `tokens[1:]`, and decode. -/
def runVP (p : VP) (th : TokHeap) (r : Ref) : Except Err (Val × Ref × TokHeap) :=
  match readT th r with
  | [] => .error .idxErr
  | t :: rest =>
    let ar := allocT th rest
    match p with
    | .defaultP => .ok (.str t, ar.1, ar.2)
    | .floatP => .ok (.floatTok t, ar.1, ar.2)
    | .intP =>
      let base : Nat :=
        if startsChar '0' t ∧ startsChar 'x' (t.drop 1) then 16
        else if startsChar '0' t ∧ startsChar 'o' (t.drop 1) then 8
        else if startsChar '0' t ∧ startsChar 'b' (t.drop 1) then 2
        else 10
      match pyIntCore base t with
      | some n => .ok (.int n, ar.1, ar.2)
      | none => .error (.valErr t base)

/-- Loop body of `split_container_ends`, structurally recursive on a bound
`n`; each iteration strips one trailing character off `t`, so `n = t.length`
can never run out before the `while` condition fails (at `n = 0` the token is
empty, its last character does not exist, and the loop would stop anyway). -/
def splitCEAux : Nat → Tok → TokHeap → Ref → Tok × TokHeap
  | 0, t, th, _ => (t, th)
  | n + 1, t, th, r =>
    if t.getLast? = some ']' then
      splitCEAux n t.dropLast (writeT th r (([']']) :: readT th r)) r
    else if t.getLast? = some '}' then
      splitCEAux n t.dropLast (writeT th r ((['}']) :: readT th r)) r
    else (t, th)

/-- Model of `PythonicArgParser.split_container_ends`: while the current token ends
with a closing delimiter, strip that delimiter off the token and re-insert it
as a standalone token at the front of the token-list object at `r` (Python
`tokens.insert(0, ...)`). -/
def splitContainerEndsH (t : Tok) (th : TokHeap) (r : Ref) : Tok × TokHeap :=
  splitCEAux t.length t th r

mutual

/-- Model of `PythonicArgParser.parse_value` (std variant, lines 205-222): empty stream
yields the empty string; a token starting with `[` has the bracket stripped in
place (`tokens[0] = t.removeprefix("[")`) and the list literal is read; a
token starting with `{` is likewise stripped, with an emptied head popped,
and the dict literal is read; otherwise the resolved value parser decodes one
token. -/
def parseValueH : Nat → TokHeap → Ref → Option Arg → Except Err (Val × Ref × TokHeap)
  | 0, _, _, _ => .error .fuelOut
  | fuel + 1, th, r, arg =>
    match readT th r with
    | [] => .ok (.str [], r, th)
    | t :: rest =>
      if startsChar '[' t then
        parseListLoopH fuel (writeT th r (removePrefixChar '[' t :: rest)) r arg []
      else if startsChar '{' t then
        let t1 := removePrefixChar '{' t
        if t1 = [] then parseDictLoopH fuel (writeT th r rest) r arg []
        else parseDictLoopH fuel (writeT th r (t1 :: rest)) r arg []
      else runVP (resolveVP arg) th r

/-- The `while` loop of `PythonicArgParser.parse_list` with its accumulator
`l`: stop on `]`, raise `ArgSyntaxError` on `}`, otherwise split trailing
delimiters off the token, push it back and parse one value. -/
def parseListLoopH : Nat → TokHeap → Ref → Option Arg → List Val → Except Err (Val × Ref × TokHeap)
  | 0, _, _, _, _ => .error .fuelOut
  | fuel + 1, th, r, arg, l =>
    match readT th r with
    | [] => .ok (.list l, r, th)
    | t :: rest =>
      let ar := allocT th rest
      if t = ['}'] then .error (.synErr t ("value or ]").toList)
      else if t = [']'] then .ok (.list l, ar.1, ar.2)
      else
        let st := splitContainerEndsH t ar.2 ar.1
        let th2 := writeT st.2 ar.1 (st.1 :: readT st.2 ar.1)
        match parseValueH fuel th2 ar.1 arg with
        | .error e => .error e
        | .ok (v, r3, th3) => parseListLoopH fuel th3 r3 arg (l ++ [v])

/-- The `while` loop of `PythonicArgParser.parse_dict` with its accumulator
`d`: stop on `}`, raise `ArgSyntaxError` on `]`, otherwise split trailing
delimiters, split the entry into `key : value-start`, push the value part
back, parse one value and assign `d[k] = v`. -/
def parseDictLoopH : Nat → TokHeap → Ref → Option Arg → List (Tok × Val) → Except Err (Val × Ref × TokHeap)
  | 0, _, _, _, _ => .error .fuelOut
  | fuel + 1, th, r, arg, d =>
    match readT th r with
    | [] => .ok (.dict d, r, th)
    | t :: rest =>
      let ar := allocT th rest
      if t = [']'] then .error (.synErr t ("key:value or \x7d").toList)
      else if t = ['}'] then .ok (.dict d, ar.1, ar.2)
      else
        let st := splitContainerEndsH t ar.2 ar.1
        match splitKwVal ':' st.1 with
        | (some k, some vs) =>
          let th2 := writeT st.2 ar.1 (vs :: readT st.2 ar.1)
          match parseValueH fuel th2 ar.1 arg with
          | .error e => .error e
          | .ok (v, r3, th3) => parseDictLoopH fuel th3 r3 arg (dinsert d k v)
        | _ => .error (.synErr st.1 ("Key:Value").toList)

/-- Model of `PythonicArgParser.eat_value`: like `parse_value` but collecting the raw
tokens a value occupies instead of decoding them. -/
def eatValueH : Nat → TokHeap → Ref → Option Arg → Except Err (List Tok × Ref × TokHeap)
  | 0, _, _, _ => .error .fuelOut
  | fuel + 1, th, r, arg =>
    match readT th r with
    | [] => .ok ([], r, th)
    | t :: rest =>
      if startsChar '[' t then
        match eatListLoopH fuel (writeT th r (removePrefixChar '[' t :: rest)) r arg [] with
        | .error e => .error e
        | .ok (xs, r2, th2) => .ok (['['] :: xs, r2, th2)
      else if startsChar '{' t then
        let t1 := removePrefixChar '{' t
        let res :=
          if t1 = [] then eatDictLoopH fuel (writeT th r rest) r arg []
          else eatDictLoopH fuel (writeT th r (t1 :: rest)) r arg []
        match res with
        | .error e => .error e
        | .ok (xs, r2, th2) => .ok (['{'] :: xs, r2, th2)
      else
        let ar := allocT th rest
        .ok ([t], ar.1, ar.2)

/-- The `while` loop of `PythonicArgParser.eat_list`. -/
def eatListLoopH : Nat → TokHeap → Ref → Option Arg → List Tok → Except Err (List Tok × Ref × TokHeap)
  | 0, _, _, _, _ => .error .fuelOut
  | fuel + 1, th, r, arg, l =>
    match readT th r with
    | [] => .ok (l, r, th)
    | t :: rest =>
      let ar := allocT th rest
      if t = ['}'] then .error (.synErr t ("value or ]").toList)
      else if t = [']'] then .ok (l ++ [[']']], ar.1, ar.2)
      else
        let st := splitContainerEndsH t ar.2 ar.1
        let th2 := writeT st.2 ar.1 (st.1 :: readT st.2 ar.1)
        match eatValueH fuel th2 ar.1 arg with
        | .error e => .error e
        | .ok (xs, r3, th3) => eatListLoopH fuel th3 r3 arg (l ++ xs)

/-- The `while` loop of `PythonicArgParser.eat_dict`: re-glues each entry as
`key` `:` first-eaten-token followed by the remaining eaten tokens. -/
def eatDictLoopH : Nat → TokHeap → Ref → Option Arg → List Tok → Except Err (List Tok × Ref × TokHeap)
  | 0, _, _, _, _ => .error .fuelOut
  | fuel + 1, th, r, arg, d =>
    match readT th r with
    | [] => .ok (d, r, th)
    | t :: rest =>
      let ar := allocT th rest
      if t = [']'] then .error (.synErr t ("key:value or \x7d").toList)
      else if t = ['}'] then .ok (d ++ [['}']], ar.1, ar.2)
      else
        let st := splitContainerEndsH t ar.2 ar.1
        match splitKwVal ':' st.1 with
        | (some k, some vs) =>
          let th2 := writeT st.2 ar.1 (vs :: readT st.2 ar.1)
          match eatValueH fuel th2 ar.1 arg with
          | .error e => .error e
          | .ok (eaten, r3, th3) =>
            match eaten with
            | [] => .error .idxErr
            | e0 :: es => eatDictLoopH fuel th3 r3 arg (d ++ ((k ++ [':'] ++ e0) :: es))
        | _ => .error (.synErr st.1 ("Key:Value").toList)

end

/-- Model of `ArgParser.get_kwarg`: find the first spec whose `name` equals the looked
up name (Python `a.name == name`), and build a fresh list without that one
object (`[a for a in args if a is not arg]`). -/
def getKwargH (ah : ArgHeap) (ad : Ref) (name : Tok) : Option Arg × Ref × ArgHeap :=
  let args := readA ah ad
  match args.findIdx? (fun a => a.name == name) with
  | none =>
    let aa := allocA ah args
    (none, aa.1, aa.2)
  | some i =>
    let aa := allocA ah (args.eraseIdx i)
    (args.get? i, aa.1, aa.2)

/-- Model of `ArgParser.get_arg`: empty list or a head that is not positional-eligible
returns `None` with the same list object; otherwise return the head and the
fresh tail `args[1:]`. -/
def getArgH (ah : ArgHeap) (ad : Ref) : Option Arg × Ref × ArgHeap :=
  match readA ah ad with
  | [] => (none, ad, ah)
  | a :: rest =>
    if a.kind == .pos || a.kind == .poskw || a.kind == .vpos then
      let aa := allocA ah rest
      (some a, aa.1, aa.2)
    else (none, ad, ah)

/-- The bindings half of `ParseResult_t[ParsedArgs_t]`: the positional `args`
list and the `kwargs` dict. -/
abbrev Bindings := List (Arg × Val) × KwList

/-- The `while` loop of `PythonicArgParser.parse`
(`src/vgra/std/arg_parsers/pythonic_arg_parser.py`, lines 224-269), with the
loop state as parameters: the token-list object at `r` in `th`, the working
ArgSpec-list object at `ad` in `ah`, and the accumulators `args`, `kwargs`,
`xs_tokens`.  On exit it returns `(args, kwargs), xs_tokens + tokens`
together with the final arenas. -/
def parseLoopH : Nat → TokHeap → Ref → ArgHeap → Ref → List (Arg × Val) → KwList →
    List Tok → Except Err (Bindings × List Tok × TokHeap × ArgHeap)
  | 0, _, _, _, _, _, _, _ => .error .fuelOut
  | fuel + 1, th, r, ah, ad, args, kwargs, xs =>
    match readT th r with
    | [] => .ok ((args, kwargs), xs, th, ah)
    | t :: rest =>
      if (readA ah ad).isEmpty then .ok ((args, kwargs), xs ++ (t :: rest), th, ah)
      else if startsChar '-' t then
        let ar := allocT th rest
        let k := removePrefixChar '-' t
        match splitKwVal '=' k with
        | (some kw, val?) =>
          let th2 :=
            match val? with
            | some v => writeT ar.2 ar.1 (v :: readT ar.2 ar.1)
            | none => ar.2
          match getKwargH ah ad kw with
          | (none, ad3, ah3) =>
            match eatValueH fuel th2 ar.1 none with
            | .error e => .error e
            | .ok (exs, r4, th4) =>
              parseLoopH fuel th4 r4 ah3 ad3 args kwargs
                (xs ++ (('-' :: kw ++ ['=']) :: exs))
          | (some a, ad3, ah3) =>
            match parseValueH fuel th2 ar.1 (some a) with
            | .error e => .error e
            | .ok (v, r4, th4) =>
              parseLoopH fuel th4 r4 ah3 ad3 args (dinsert kwargs a.name (a, v)) xs
        | (none, _) =>
          match getKwargH ah ad k with
          | (none, ad2, ah2) =>
            parseLoopH fuel ar.2 ar.1 ah2 ad2 args kwargs (xs ++ [('-' :: k)])
          | (some a, ad2, ah2) =>
            parseLoopH fuel ar.2 ar.1 ah2 ad2 args
              (dinsert kwargs a.name (a, .bool true)) xs
      else
        match getArgH ah ad with
        | (none, ad1, ah1) =>
          match eatValueH fuel th r none with
          | .error e => .error e
          | .ok (exs, r2, th2) =>
            parseLoopH fuel th2 r2 ah1 ad1 args kwargs (xs ++ exs)
        | (some a, ad1, ah1) =>
          match parseValueH fuel th r (some a) with
          | .error e => .error e
          | .ok (v, r2, th2) =>
            parseLoopH fuel th2 r2 ah1 ad1 (args ++ [(a, v)]) kwargs xs

/-- Generous fuel bound for a token vector (each loop iteration and each
recursive value-parsing step consumes one unit; splitting can create at most
one token per character). -/
def fuelFor (tokens : List Tok) : Nat :=
  tokens.foldr (fun t n => n + 2 * t.length + 3) 3

/-- Model of `PythonicArgParser.parse` as the caller observes its return value: run the
loop on freshly allocated token-list and ArgSpec-list objects and project the
`(args, kwargs), leftover` result. -/
def parse (tokens : List Tok) (argd : List Arg) : Except Err (Bindings × List Tok) :=
  (parseLoopH (fuelFor tokens) [tokens] 0 [argd] 0 [] [] []).map
    (fun x => (x.1, x.2.1))

/-- Model of `PythonicArgParser.parse_value` as its caller observes it: the decoded
value and the contents of the returned token-list object. -/
def parseValue (tokens : List Tok) (arg : Option Arg) : Except Err (Val × List Tok) :=
  (parseValueH (fuelFor tokens) [tokens] 0 arg).map
    (fun x => (x.1, readT x.2.2 x.2.1))

/-- The contents of the caller's token-list object (the object passed to
`parse`) after `parse` returns. -/
def callerTokensAfter (tokens : List Tok) (argd : List Arg) : Except Err (List Tok) :=
  (parseLoopH (fuelFor tokens) [tokens] 0 [argd] 0 [] [] []).map
    (fun x => readT x.2.2.1 0)

/-!  Sample ArgSpecs used as concrete inputs, built the way
`cli._parse_signature` builds `Arg` values. -/

/-- An untyped positional-or-keyword spec `xs`. -/
def anyPos : Arg := ⟨.poskw, ("xs").toList, [("xs").toList], .tAny, none, [], true, none⟩

/-- An int-typed positional-or-keyword spec `xs`. -/
def intPos : Arg := ⟨.poskw, ("xs").toList, [("xs").toList], .tInt, none, [], true, none⟩

/-- An int-typed keyword-only spec named `rot` with the single alias `rot`. -/
def rotKw : Arg := ⟨.kw, ("rot").toList, [("rot").toList], .tInt, none, [], true, none⟩

/-- An int-typed keyword-only spec named `rot` declaring the aliases
`rot` and `r` in its `names` list. -/
def rotAlias : Arg :=
  ⟨.kw, ("rot").toList, [("rot").toList, ("r").toList], .tInt, none, [], true, none⟩

/-- An untyped variadic-positional spec `xs`. -/
def vposAny : Arg := ⟨.vpos, ("xs").toList, [("xs").toList], .tAny, none, [], true, none⟩

/-- C1 (counterexample).  Against the int keyword spec aliased `rot`, the token
pair `-rot` `5` does NOT bind `rot` to the integer 5 and does not consume two
tokens: the bare-flag branch of `PythonicArgParser.parse` binds the boolean
`True` and consumes only the flag token, leaving `5` in the leftover, whereas
the single token `-rot=5` binds the integer 5 — so the two input forms are not
equivalent. -/
theorem c1_pair_inline_counterexample :
    parse [("-rot").toList, ("5").toList] [rotKw] =
      .ok (([], [(("rot").toList, (rotKw, Val.bool true))]), [("5").toList]) ∧
    parse [("-rot=5").toList] [rotKw] =
      .ok (([], [(("rot").toList, (rotKw, Val.int 5))]), []) ∧
    Val.bool true ≠ Val.int 5 ∧
    ([("5").toList] : List Tok) ≠ [] :=
  ⟨rfl, rfl, fun h => Val.noConfusion h, fun h => List.noConfusion h⟩

/-- C1 (amended).  Against an int keyword spec aliased `rot`, the pair
`-rot` `5` binds `rot` to the boolean literal `True`, consuming exactly one
token (the flag), with `5` passed through; only the inline form `-rot=5`
binds `rot` to the integer 5 and consumes the whole token, so the pair form
and the inline form are not equivalent. -/
theorem c1_pair_binds_true_inline_binds_int :
    parse [("-rot").toList, ("5").toList] [rotKw] =
      .ok (([], [(("rot").toList, (rotKw, Val.bool true))]), [("5").toList]) ∧
    parse [("-rot=5").toList] [rotKw] =
      .ok (([], [(("rot").toList, (rotKw, Val.int 5))]), []) :=
  ⟨rfl, rfl⟩

/-- C2 (counterexample).  With the stream exhausted while a list literal is
still open — the claim's own example `["[", "1", "2"]` — the parse call does
NOT raise any unterminated-literal error: against an untyped spec it returns
normally, binding the partial list (whose first element is the empty string
left by stripping the `[` head in place), and the open-dict analogue
`["{", "a:1"]` likewise returns the partial mapping. -/
theorem c2_unterminated_returns_value_counterexample :
    parse [("[").toList, ("1").toList, ("2").toList] [anyPos] =
      .ok (([(anyPos, Val.list [Val.str [], Val.str ("1").toList, Val.str ("2").toList])], []),
        []) ∧
    parse [("\x7b").toList, ("a:1").toList] [anyPos] =
      .ok (([(anyPos, Val.dict [(("a").toList, Val.str ("1").toList)])], []), []) :=
  ⟨rfl, rfl⟩

/-- C2 (amended).  When the token stream is exhausted while a list or mapping
literal is still open, no error is raised: the `while` loops of `parse_list`
and `parse_dict` simply exit and return the container parsed so far (the code
defines no unterminated-literal error at all). -/
theorem c2_partial_container_returned (fuel : Nat) (th : TokHeap) (r : Ref)
    (arg : Option Arg) (l : List Val) (d : List (Tok × Val))
    (h : readT th r = []) :
    parseListLoopH (fuel + 1) th r arg l = .ok (.list l, r, th) ∧
    parseDictLoopH (fuel + 1) th r arg d = .ok (.dict d, r, th) := by
  constructor
  · rw [parseListLoopH, h]
  · rw [parseDictLoopH, h]

/-- C2 (witness for the amended theorem). -/
theorem c2_partial_container_returned_witness :
    readT [[]] 0 = [] ∧
    parseListLoopH 1 [[]] 0 none [Val.int 1] = .ok (.list [Val.int 1], 0, [[]]) ∧
    parseDictLoopH 1 [[]] 0 none [] = .ok (.dict [], 0, [[]]) :=
  ⟨rfl, (c2_partial_container_returned 0 [[]] 0 none [Val.int 1] [] rfl).1,
    (c2_partial_container_returned 0 [[]] 0 none [Val.int 1] [] rfl).2⟩

/-- C3 (code bug).  Parsing the separate-token sequence
`["[", "1", "2", "3", "]"]` as the value of an int-typed spec raises the
decode error on the empty string instead of yielding `[1, 2, 3]`: stripping
`[` off the head token leaves an empty head that `parse_value` does not pop
(the dict branch pops it, the list branch does not), and that empty token is
fed to `IntParser`.  The adjacent-empty literal `["[", "]"]` fails the same
way, while the glued forms `["[1", "2", "3]"]` and `["[]"]` behave as the
claim expects. -/
theorem c3_separate_list_tokens_raise :
    parseValue [("[").toList, ("1").toList, ("2").toList, ("3").toList, ("]").toList]
      (some intPos) = .error (.valErr [] 10) ∧
    parseValue [("[").toList, ("]").toList] (some intPos) = .error (.valErr [] 10) ∧
    parseValue [("[1").toList, ("2").toList, ("3]").toList] (some intPos) =
      .ok (.list [Val.int 1, Val.int 2, Val.int 3], []) ∧
    parseValue [("[]").toList] (some intPos) = .ok (.list [], []) :=
  ⟨rfl, rfl, rfl, rfl⟩

/-- C4 (code bug).  Glued-delimiter equivalence fails: `["[1", "2", "3]"]`
parses to `[1, 2, 3]` but the separate-token form `["[", "1", "2", "3", "]"]`
raises the empty-string decode error, so the two token spellings do not
produce identical results. -/
theorem c4_glued_separate_disagree :
    parseValue [("[1").toList, ("2").toList, ("3]").toList] (some intPos) =
      .ok (.list [Val.int 1, Val.int 2, Val.int 3], []) ∧
    parseValue [("[").toList, ("1").toList, ("2").toList, ("3").toList, ("]").toList]
      (some intPos) = .error (.valErr [] 10) ∧
    parseValue [("[1").toList, ("2").toList, ("3]").toList] (some intPos) ≠
      parseValue [("[").toList, ("1").toList, ("2").toList, ("3").toList, ("]").toList]
        (some intPos) := by
  have hg : parseValue [("[1").toList, ("2").toList, ("3]").toList] (some intPos) =
      .ok (.list [Val.int 1, Val.int 2, Val.int 3], []) := rfl
  have hs : parseValue [("[").toList, ("1").toList, ("2").toList, ("3").toList, ("]").toList]
      (some intPos) = .error (.valErr [] 10) := rfl
  refine ⟨hg, hs, ?_⟩
  rw [hg, hs]
  intro h
  exact Except.noConfusion h

/-- C5 (code bug).  `r` is a declared alias of the spec `rotAlias`
(its `names` list is `["rot", "r"]`), yet `get_kwarg` compares the looked-up
name only against the canonical `Arg.name`, so both `-r` and `-r=5` fail to
bind and fall through to the leftover output. -/
theorem c5_alias_not_matched :
    (("r").toList ∈ rotAlias.names) ∧
    parse [("-r").toList] [rotAlias] = .ok (([], []), [("-r").toList]) ∧
    parse [("-r=5").toList] [rotAlias] =
      .ok (([], []), [("-r=").toList, ("5").toList]) := by
  refine ⟨?_, rfl, rfl⟩
  simp [rotAlias]

/-- C6 (code bug).  A VariadicPositional spec does NOT remain in the working
set: `get_arg` returns `args[1:]` for every positional-eligible kind
including `VPOS`, so after `a` is bound the spec list is empty and `b` is
passed through to leftover instead of being absorbed. -/
theorem c6_vpos_consumed_after_first_match :
    vposAny.kind = ArgKind.vpos ∧
    parse [("a").toList, ("b").toList] [vposAny] =
      .ok (([(vposAny, Val.str ("a").toList)], []), [("b").toList]) :=
  ⟨rfl, rfl⟩

/-- C7 (counterexample).  The bare keyword form `rot=5` (no flag prefix) is
NOT resolved like the prefixed form by `PythonicArgParser.parse`: with the
keyword spec `rot` unconsumed, `-rot=5` binds `rot` to the integer 5, but the
bare `rot=5` token takes the positional branch, matches no positional spec,
and is passed through whole to leftover. -/
theorem c7_bare_keyword_counterexample :
    parse [("rot=5").toList] [rotKw] = .ok (([], []), [("rot=5").toList]) ∧
    parse [("-rot=5").toList] [rotKw] =
      .ok (([], [(("rot").toList, (rotKw, Val.int 5))]), []) ∧
    parse [("rot=5").toList] [rotKw] ≠ parse [("-rot=5").toList] [rotKw] := by
  have hb : parse [("rot=5").toList] [rotKw] = .ok (([], []), [("rot=5").toList]) := rfl
  have hp : parse [("-rot=5").toList] [rotKw] =
      .ok (([], [(("rot").toList, (rotKw, Val.int 5))]), []) := rfl
  refine ⟨hb, hp, ?_⟩
  rw [hb, hp]
  intro h
  simp at h

/-- C7 (amended).  A bare `name=value` token is handled by the positional
branch of `PythonicArgParser.parse`, never the keyword branch: it goes whole
to leftover when no positional-eligible spec remains, and is bound whole as a
positional value when one does.  (Only the superseded `PythonicArgParser` in
`src/vgra/parser.py`, which `cli.py` does not use, resolves the bare keyword
form.) -/
theorem c7_bare_keyword_is_positional :
    parse [("rot=5").toList] [rotKw] = .ok (([], []), [("rot=5").toList]) ∧
    parse [("rot=5").toList] [anyPos] =
      .ok (([(anyPos, Val.str ("rot=5").toList)], []), []) :=
  ⟨rfl, rfl⟩

/-- Helper: the linear scan of `get_kwarg` finds nothing when no spec bears
the requested name. -/
theorem findIdxNameNone (k : Tok) :
    ∀ l : List Arg, (∀ a ∈ l, a.name ≠ k) → l.findIdx? (fun a => a.name == k) = none := by
  intro l
  induction l with
  | nil => intro _; rfl
  | cons a as ih =>
    intro h
    have ha : (a.name == k) = false := beq_eq_false_iff_ne.mpr (h a (by simp))
    have has := ih (fun x hx => h x (by simp [hx]))
    simp [List.findIdx?_cons, ha, has]

/-- Helper: reading a freshly allocated Arg-list object yields exactly the
allocated contents. -/
theorem readA_allocA : ∀ (ah : ArgHeap) (l : List Arg),
    readA (allocA ah l).2 (allocA ah l).1 = l := by
  intro ah l
  induction ah with
  | nil => rfl
  | cons a t ih => simpa [readA, allocA] using ih

/-- C8.  One loop iteration of `PythonicArgParser.parse` on an unconsumed
bare flag token `-k` that matches no spec's name: the token is appended to
the leftover accumulator exactly once and byte-for-byte unmodified, the
bindings accumulators are untouched, no error is raised by the step, and the
loop continues on the remaining tokens with a working spec list whose
contents are unchanged (only freshly copied), so leftover tokens keep their
original relative stream order. -/
theorem c8_unknown_flag_passthrough
    (fuel : Nat) (th : TokHeap) (r : Ref) (ah : ArgHeap) (ad : Ref)
    (args : List (Arg × Val)) (kwargs : KwList) (xs : List Tok)
    (k : Tok) (rest : List Tok)
    (hT : readT th r = ('-' :: k) :: rest)
    (hA : readA ah ad ≠ [])
    (hkw : splitKwVal '=' k = (none, some k))
    (hname : ∀ a ∈ readA ah ad, a.name ≠ k) :
    parseLoopH (fuel + 1) th r ah ad args kwargs xs =
      parseLoopH fuel (allocT th rest).2 (allocT th rest).1
        (allocA ah (readA ah ad)).2 (allocA ah (readA ah ad)).1
        args kwargs (xs ++ [('-' :: k)]) ∧
    readA (allocA ah (readA ah ad)).2 (allocA ah (readA ah ad)).1 = readA ah ad := by
  have hidx := findIdxNameNone k (readA ah ad) hname
  have hne : (readA ah ad).isEmpty = false := by
    cases hcase : readA ah ad with
    | nil => exact absurd hcase hA
    | cons a as => rfl
  refine ⟨?_, readA_allocA ah (readA ah ad)⟩
  rw [parseLoopH, hT]
  simp only [hne, Bool.false_eq_true, if_false, startsChar, removePrefixChar,
    beq_self_eq_true, if_true, hkw, getKwargH, hidx]

/-- C8 (witness): the unknown flag `-xyz` against the spec list `[rotKw]`. -/
theorem c8_unknown_flag_passthrough_witness :
    readT [[("-xyz").toList, ("7").toList]] 0 =
      ('-' :: ("xyz").toList) :: [("7").toList] ∧
    (∀ a ∈ readA [[rotKw]] 0, a.name ≠ ("xyz").toList) ∧
    parseLoopH 2 [[("-xyz").toList, ("7").toList]] 0 [[rotKw]] 0 [] [] [] =
      parseLoopH 1 (allocT [[("-xyz").toList, ("7").toList]] [("7").toList]).2
        (allocT [[("-xyz").toList, ("7").toList]] [("7").toList]).1
        (allocA [[rotKw]] (readA [[rotKw]] 0)).2
        (allocA [[rotKw]] (readA [[rotKw]] 0)).1
        [] [] ([] ++ [('-' :: ("xyz").toList)]) :=
  ⟨rfl, by decide,
    (c8_unknown_flag_passthrough 1 [[("-xyz").toList, ("7").toList]] 0 [[rotKw]] 0
      [] [] [] (("xyz").toList) [("7").toList] rfl (by simp [readA]) rfl (by decide)).1⟩

/-- Helper: both branches of `get_kwarg` allocate one fresh Arg-list object
and never write to an existing one. -/
theorem getKwargH_ext (ah : ArgHeap) (ad : Ref) (n : Tok) :
    ∃ l, (getKwargH ah ad n).2.2 = ah ++ [l] := by
  cases h : (readA ah ad).findIdx? (fun a => a.name == n) with
  | none => exact ⟨readA ah ad, by simp [getKwargH, allocA, h]⟩
  | some i => exact ⟨(readA ah ad).eraseIdx i, by simp [getKwargH, allocA, h]⟩

/-- Helper: `get_arg` either returns the same arena or allocates one fresh
Arg-list object; it never writes to an existing one. -/
theorem getArgH_ext (ah : ArgHeap) (ad : Ref) :
    ∃ e, (getArgH ah ad).2.2 = ah ++ e := by
  cases h : readA ah ad with
  | nil => exact ⟨[], by simp [getArgH, h]⟩
  | cons a rest =>
    by_cases hk : (a.kind == ArgKind.pos || a.kind == ArgKind.poskw || a.kind == ArgKind.vpos) = true
    · exact ⟨[rest], by simp [getArgH, h, hk, allocA]⟩
    · exact ⟨[], by simp [getArgH, h, hk]⟩

/-- Helper: equation form of `getKwargH_ext`. -/
theorem kwExtOf {ah : ArgHeap} {ad : Ref} {K : Tok} {o : Option Arg} {adX : Ref}
    {ahX : ArgHeap} (heq : getKwargH ah ad K = (o, adX, ahX)) :
    ∃ l, ahX = ah ++ [l] := by
  obtain ⟨l, hl⟩ := getKwargH_ext ah ad K
  rw [heq] at hl
  exact ⟨l, hl⟩

/-- Helper: equation form of `getArgH_ext`. -/
theorem argExtOf {ah : ArgHeap} {ad : Ref} {o : Option Arg} {adX : Ref}
    {ahX : ArgHeap} (heq : getArgH ah ad = (o, adX, ahX)) :
    ∃ l, ahX = ah ++ l := by
  obtain ⟨l, hl⟩ := getArgH_ext ah ad
  rw [heq] at hl
  exact ⟨l, hl⟩

/-- Helper: across a whole run of the `parse` loop the Arg-list arena only
ever grows by fresh allocations (`get_kwarg`'s list comprehension,
`get_arg`'s `args[1:]`); no existing Arg-list object is ever written. -/
theorem parseLoopH_argHeapExt : ∀ (fuel : Nat) (th : TokHeap) (r : Ref) (ah : ArgHeap)
    (ad : Ref) (args : List (Arg × Val)) (kwargs : KwList) (xs : List Tok)
    (out : Bindings × List Tok × TokHeap × ArgHeap),
    parseLoopH fuel th r ah ad args kwargs xs = .ok out →
    ∃ e, out.2.2.2 = ah ++ e := by
  intro fuel
  induction fuel with
  | zero =>
    intro th r ah ad args kwargs xs out h
    simp [parseLoopH] at h
  | succ n ih =>
    intro th r ah ad args kwargs xs out h
    simp only [parseLoopH] at h
    split at h
    all_goals try (injection h with h2; subst h2; exact ⟨[], by simp⟩)
    all_goals try split at h
    all_goals try (injection h with h2; subst h2; exact ⟨[], by simp⟩)
    all_goals try split at h
    all_goals try split at h
    all_goals try split at h
    all_goals try split at h
    all_goals try split at h
    all_goals try (exact Except.noConfusion h)
    all_goals try split at h
    all_goals try (exact Except.noConfusion h)
    all_goals
      obtain ⟨e1, he1⟩ := ih _ _ _ _ _ _ _ _ h
    all_goals
      first
      | (obtain ⟨l, hl⟩ := kwExtOf (by assumption)
         exact ⟨l :: e1, by rw [he1, hl]; simp⟩)
      | (obtain ⟨l, hl⟩ := argExtOf (by assumption)
         exact ⟨l ++ e1, by rw [he1, hl]; simp⟩)

/-- C9.  A `parse` call never mutates the caller's ArgSpec-list object: spec
removal happens only on the fresh working copies returned by
`get_kwarg`/`get_arg`, so whenever the loop returns, the object the caller
passed in (reference 0 of the Arg arena) still holds exactly the original
spec list, element for element. -/
theorem c9_parse_never_mutates_argd (fuel : Nat) (tokens : List Tok) (argd : List Arg)
    (out : Bindings × List Tok × TokHeap × ArgHeap)
    (h : parseLoopH fuel [tokens] 0 [argd] 0 [] [] [] = .ok out) :
    readA out.2.2.2 0 = argd := by
  obtain ⟨e, he⟩ := parseLoopH_argHeapExt fuel [tokens] 0 [argd] 0 [] [] [] out h
  rw [he]
  rfl

/-- C9 (witness): a run binding `x` to the positional spec `anyPos` leaves
the caller's spec-list object holding `[anyPos]`. -/
theorem c9_parse_never_mutates_argd_witness :
    readA [[anyPos], []] 0 = [anyPos] :=
  c9_parse_never_mutates_argd 3 [("x").toList] [anyPos]
    ((([(anyPos, Val.str ("x").toList)], []), [], [[("x").toList], []], [[anyPos], []])) rfl

/-- C10.  A `parse` call can mutate the caller's token-list object in place:
for the argv `["[1", "2", "3]"]` against an int positional spec,
`parse_value` rewrites the head token of the caller's own object
(`tokens[0] = t.removeprefix("[")`) before `parse_list` rebinds to fresh
slices, so after `parse` returns, the caller's list reads
`["1", "2", "3]"]` — observably different from what was passed in. -/
theorem c10_parse_mutates_caller_tokens :
    callerTokensAfter [("[1").toList, ("2").toList, ("3]").toList] [intPos] =
      .ok [("1").toList, ("2").toList, ("3]").toList] ∧
    callerTokensAfter [("[1").toList, ("2").toList, ("3]").toList] [intPos] ≠
      .ok [("[1").toList, ("2").toList, ("3]").toList] := by
  have h1 : callerTokensAfter [("[1").toList, ("2").toList, ("3]").toList] [intPos] =
      .ok [("1").toList, ("2").toList, ("3]").toList] := rfl
  refine ⟨h1, ?_⟩
  rw [h1]
  intro h
  injection h with h2
  exact absurd h2 (by decide)

end Vgra
